import Mathlib
set_option maxHeartbeats 4000000
set_option maxRecDepth 100000

/-!
Shallow embedding of the core of the multimodal-clinic-agent repository:
the healthcare safety filter (src/safety/healthcare_filter.py), the text
chunker and cleaner (src/rag/document_processor.py), the vector store
(src/rag/vector_store.py) and the RAG pipeline (src/rag/rag_pipeline.py).

Strings are modelled as `List Char`; Python regular-expression word
patterns of the shape \b(w1|w2|w3)\b are modelled by an explicit
left-to-right scanner with word boundaries; similarity scores are
modelled over ℚ.  Python dictionaries are modelled as insertion-ordered
association lists.
-/

namespace ClinicAgent

/-! ## Character classes (ASCII fragment of Python's \w, \s and str.lower) -/

/-- Python whitespace for the ASCII range: space, \t, \n, \v, \f, \r. -/
def isSpaceChar (c : Char) : Bool :=
  c.toNat == 32 || c.toNat == 9 || c.toNat == 10 ||
  c.toNat == 11 || c.toNat == 12 || c.toNat == 13

/-- Python regex \w for the ASCII range: letters, digits and underscore. -/
def isWordChar (c : Char) : Bool :=
  (decide (97 ≤ c.toNat) && decide (c.toNat ≤ 122)) ||
  (decide (65 ≤ c.toNat) && decide (c.toNat ≤ 90)) ||
  (decide (48 ≤ c.toNat) && decide (c.toNat ≤ 57)) ||
  c.toNat == 95

/-- str.lower for the ASCII range: map A..Z to a..z, keep the rest. -/
def lowerChar (c : Char) : Char :=
  if 65 ≤ c.toNat ∧ c.toNat ≤ 90 then Char.ofNat (c.toNat + 32) else c

/-- content.lower() applied characterwise. -/
def lowerStr (s : List Char) : List Char := s.map lowerChar

/-! ## Word-boundary pattern scanner

A Python pattern `\b(a₁|a₂|…)\b` (all alternatives start and end with a
word character, as every pattern table in healthcare_filter.py does) is
modelled by its list of alternatives.  `re.findall` scans left to right,
tries the alternatives in order at each position, counts a match when
the preceding position is not inside a word and the character following
the matched text is not a word character, and resumes scanning after the
matched text. -/

/-- The position right after a candidate match must not continue a word. -/
def endBoundaryOk : List Char → Bool
  | [] => true
  | c :: _ => !(isWordChar c)

/-- Try the alternatives in order at the current position; return the
matched alternative. -/
def tryAlts : List (List Char) → List Char → Option (List Char)
  | [], _ => none
  | a :: rest, s =>
    if a.isPrefixOf s && endBoundaryOk (s.drop a.length) then some a
    else tryAlts rest s

/-- Does the scan position sit right after a word character once an
alternative has been consumed? -/
def wordEnd (a : List Char) : Bool :=
  match a.getLast? with
  | some c => isWordChar c
  | none => false

/-- Fuel-indexed scanner counting non-overlapping matches, `prevW` being
true when the previous character is a word character (so no \b holds).
Fuel `s.length` always suffices since every step consumes at least one
character. -/
def countMatchesF (alts : List (List Char)) : Nat → Bool → List Char → Nat
  | 0, _, _ => 0
  | _ + 1, _, [] => 0
  | fuel + 1, prevW, c :: cs =>
    if prevW then countMatchesF alts fuel (isWordChar c) cs
    else
      match tryAlts alts (c :: cs) with
      | none => countMatchesF alts fuel (isWordChar c) cs
      | some a =>
        if a.length ≤ 1 then 1 + countMatchesF alts fuel (wordEnd a) cs
        else 1 + countMatchesF alts fuel (wordEnd a) (List.drop (a.length - 1) cs)

/-- Number of matches of one pattern in a string, re.findall style. -/
def patternScore (p : List (List Char)) (s : List Char) : Nat :=
  countMatchesF p s.length false s

/-- Total number of matches over all patterns of one tier. -/
def tierScore (tier : List (List (List Char))) (s : List Char) : Nat :=
  (tier.map (fun p => patternScore p s)).sum

/-! ## Pattern tables of HealthcareSafetyFilter

Transcribed from _initialize_unsafe_patterns and
_initialize_medical_advice_patterns; each regex \b(a|b|c)\b becomes its
list of alternatives (re.IGNORECASE over the lowered content makes the
patterns effectively lowercase). -/

/-- Shorthand turning a list of words into a pattern's alternatives. -/
def pat (ws : List String) : List (List Char) := ws.map String.toList

def critical_patterns : List (List (List Char)) :=
  [pat ["diagnose", "diagnosis", "diagnosed"],
   pat ["treat", "treatment", "treating"],
   pat ["prescribe", "prescription", "medication"],
   pat ["surgery", "surgical", "operation"],
   pat ["prognosis", "outcome", "survival"],
   pat ["emergency", "urgent", "immediate"],
   pat ["deadly", "fatal", "lethal"],
   pat ["cancer", "cancerous", "malignant"],
   pat ["heart attack", "stroke", "seizure"]]

def high_patterns : List (List (List Char)) :=
  [pat ["symptom", "symptoms"],
   pat ["pain", "hurting", "ache"],
   pat ["fever", "temperature", "hot"],
   pat ["bleeding", "blood", "wound"],
   pat ["nausea", "vomiting", "dizzy"],
   pat ["breathing", "breathless", "choking"],
   pat ["chest pain", "heart", "cardiac"],
   pat ["headache", "migraine", "pressure"]]

def medium_patterns : List (List (List Char)) :=
  [pat ["medicine", "pill", "drug"],
   pat ["dose", "dosage", "amount"],
   pat ["side effect", "reaction", "allergy"],
   pat ["test", "testing", "exam"],
   pat ["result", "finding", "abnormal"],
   pat ["risk", "dangerous", "harmful"]]

def low_patterns : List (List (List Char)) :=
  [pat ["healthy", "wellness", "fitness"],
   pat ["nutrition", "diet", "vitamin"],
   pat ["exercise", "workout", "activity"],
   pat ["sleep", "rest", "relaxation"],
   pat ["prevention", "prevent", "avoid"]]

def medical_advice_patterns : List (List (List Char)) :=
  [pat ["you should", "you need to", "you must"],
   pat ["i recommend", "i suggest", "i advise"],
   pat ["take this", "use this", "try this"],
   pat ["apply", "administer", "inject"],
   pat ["continue", "stop", "start"],
   pat ["change", "modify", "adjust"],
   pat ["combine", "mix", "add"],
   pat ["avoid", "prevent", "stop"]]

/-! ## Risk assessment (HealthcareSafetyFilter) -/

inductive RiskLevel where
  | LOW | MEDIUM | HIGH | CRITICAL
deriving DecidableEq, Repr

inductive Severity where
  | none | medium | high
deriving DecidableEq, Repr

/-- The risk_scores dictionary of _assess_content_risk, one count per tier. -/
structure RiskScores where
  critical : Nat
  high : Nat
  medium : Nat
  low : Nat
deriving DecidableEq, Repr

/-- Result dictionary of _assess_content_risk. -/
structure RiskAssessment where
  risk_scores : RiskScores
  total_risk : Nat
deriving DecidableEq, Repr

/-- Result dictionary of _detect_medical_advice. -/
structure AdviceDetection where
  advice_count : Nat
  severity : Severity
deriving DecidableEq, Repr

/-- HealthcareSafetyFilter._assess_content_risk: count matches per tier
over the lowered content and weight them 10 / 5 / 2 / 1. -/
def assess_content_risk (content : List Char) : RiskAssessment :=
  let cl := lowerStr content
  let c := tierScore critical_patterns cl
  let h := tierScore high_patterns cl
  let m := tierScore medium_patterns cl
  let l := tierScore low_patterns cl
  { risk_scores := ⟨c, h, m, l⟩,
    total_risk := c * 10 + h * 5 + m * 2 + l * 1 }

/-- HealthcareSafetyFilter._detect_medical_advice. -/
def detect_medical_advice (content : List Char) : AdviceDetection :=
  let cnt := tierScore medical_advice_patterns (lowerStr content)
  { advice_count := cnt,
    severity :=
      if cnt ≥ 3 then Severity.high
      else if cnt ≥ 1 then Severity.medium
      else Severity.none }

/-- HealthcareSafetyFilter._determine_safety. -/
def determine_safety (ra : RiskAssessment) (ma : AdviceDetection) : Bool :=
  if ra.total_risk ≥ 20 then false
  else if ma.severity = Severity.high then false
  else if ra.risk_scores.critical > 0 then false
  else true

/-- HealthcareSafetyFilter._determine_risk_level. -/
def determine_risk_level (ra : RiskAssessment) (ma : AdviceDetection) : RiskLevel :=
  if ra.total_risk ≥ 30 ∨ ma.severity = Severity.high then RiskLevel.CRITICAL
  else if ra.total_risk ≥ 20 ∨ ma.severity = Severity.medium then RiskLevel.HIGH
  else if ra.total_risk ≥ 10 then RiskLevel.MEDIUM
  else RiskLevel.LOW

/-- Fields of SafetyResult used by the claims. -/
structure SafetyResult where
  is_safe : Bool
  risk_level : RiskLevel
deriving DecidableEq, Repr

/-- HealthcareSafetyFilter.check_content: empty or whitespace-only
content is safe/LOW, otherwise the verdict combines the weighted risk
assessment and the medical-advice detection. -/
def check_content (content : List Char) : SafetyResult :=
  if content.all isSpaceChar then ⟨true, RiskLevel.LOW⟩
  else
    let ra := assess_content_risk content
    let ma := detect_medical_advice content
    ⟨determine_safety ra ma, determine_risk_level ra ma⟩

/-! ## Safe fallback responses (HealthcareSafetyFilter.generate_safe_response) -/

/-- Python `keyword in message` substring test. -/
def containsSub (needle hay : List Char) : Bool :=
  hay.tails.any (fun t => needle.isPrefixOf t)

def emergency_keywords : List (List Char) :=
  pat ["emergency", "urgent", "immediate", "severe", "critical",
       "pain", "bleeding", "unconscious", "breathing", "heart"]

def symptom_keywords : List (List Char) :=
  pat ["symptom", "feeling", "experiencing", "noticing", "having"]

def treatment_keywords : List (List Char) :=
  pat ["treat", "cure", "fix", "help", "solution", "remedy"]

/-- any(keyword in message_lower for keyword in keywords). -/
def containsAnyKeyword (kws : List (List Char)) (messageLower : List Char) : Bool :=
  kws.any (fun k => containsSub k messageLower)

def emergency_response : List Char :=
  ("I understand you may be experiencing concerning symptoms. " ++
   "If you\x27re experiencing a medical emergency, please call emergency services immediately. " ++
   "For non-emergency concerns, I recommend consulting with a healthcare professional " ++
   "who can properly assess your situation and provide appropriate guidance.").toList

def symptom_response : List Char :=
  ("I can provide general information about symptoms, but I cannot diagnose or assess " ++
   "your specific situation. If you\x27re concerned about symptoms you\x27re experiencing, " ++
   "please consult with a healthcare professional who can properly evaluate your condition " ++
   "and provide appropriate medical advice.").toList

def treatment_response : List Char :=
  ("I can provide educational information about treatments, but I cannot recommend " ++
   "specific treatments for your situation. Treatment decisions should be made by " ++
   "qualified healthcare professionals based on your individual medical history, " ++
   "current condition, and other relevant factors.").toList

def general_safe_response : List Char :=
  ("I\x27m here to provide helpful healthcare information and answer your questions. " ++
   "However, for any medical concerns, diagnosis, or treatment recommendations, " ++
   "please consult with qualified healthcare professionals who can provide " ++
   "personalized medical advice based on your specific situation.").toList

/-- HealthcareSafetyFilter.generate_safe_response: pick exactly one of
the four canned responses by keyword presence in the lowered user
message, in emergency → symptom → treatment → general priority order. -/
def generate_safe_response (user_message : List Char) : List Char :=
  let m := lowerStr user_message
  if containsAnyKeyword emergency_keywords m then emergency_response
  else if containsAnyKeyword symptom_keywords m then symptom_response
  else if containsAnyKeyword treatment_keywords m then treatment_response
  else general_safe_response

/-! ## Text chunker (DocumentProcessor.chunk_text)

Python slicing with possibly negative indices is modelled by `pySlice`;
`rfind` returns -1 when the character is absent; the float comparison
`last_ending > chunk_size * 0.7` is modelled over the integers as
`10 * last_ending > 7 * chunk_size` (exact for the concrete values used
in the theorems below).  The while loop is modelled with explicit fuel
because — as theorem c3 below shows — the source loop does not terminate
on all inputs. -/

/-- Normalize one Python slice index for a string of length `len`. -/
def pyIdx (len : Nat) (i : Int) : Nat :=
  if i < 0 then ((len : Int) + i).toNat else min i.toNat len

/-- Python text[a:b]. -/
def pySlice (s : List Char) (a b : Int) : List Char :=
  let lo := pyIdx s.length a
  let hi := pyIdx s.length b
  (s.drop lo).take (hi - lo)

/-- Python str.rfind(c): index of the last occurrence, -1 when absent. -/
def rfind (s : List Char) (c : Char) : Int :=
  match s.reverse.findIdx? (fun x => x == c) with
  | some j => ((s.length - 1 - j : Nat) : Int)
  | none => -1

/-- str.strip() of the leading whitespace only. -/
def dropLeadingSpaces (s : List Char) : List Char := s.dropWhile isSpaceChar

/-- str.strip() of the trailing whitespace only, structurally. -/
def dropTrailingSpaces : List Char → List Char
  | [] => []
  | c :: cs =>
    match dropTrailingSpaces cs with
    | [] => if isSpaceChar c then [] else [c]
    | r => c :: r

/-- Python str.strip(). -/
def pyStrip (s : List Char) : List Char := dropTrailingSpaces (dropLeadingSpaces s)

/-- One sentence-ending candidate: accept chunk.rfind(ending) only when
it lies in the last 30 percent of the window (last_ending > chunk_size * 0.7). -/
def tryEnding (chunk : List Char) (chunk_size : Nat) (e : Char) : Option Nat :=
  let i := rfind chunk e
  if 10 * i > 7 * (chunk_size : Int) then some i.toNat else none

/-- The for loop over sentence_endings = ['.', '!', '?', newline],
breaking at the first ending that passes the threshold. -/
def findBreak (chunk : List Char) (chunk_size : Nat) : List Char → Option Nat
  | [] => none
  | e :: rest =>
    match tryEnding chunk chunk_size e with
    | some i => some i
    | none => findBreak chunk chunk_size rest

def sentence_endings : List Char := ['.', '!', '?', '\n']

/-- One iteration of the chunk_text while loop: extract the window,
optionally pull the end back to a sentence break, and return the chunk
(before stripping) together with the end position. -/
def chunkIter (text : List Char) (chunk_size : Nat) (start : Int) :
    List Char × Int :=
  let end0 : Int := start + (chunk_size : Int)
  let chunk0 := pySlice text start end0
  if end0 < (text.length : Int) then
    match findBreak chunk0 chunk_size sentence_endings with
    | some i => (chunk0.take (i + 1), start + (i : Int) + 1)
    | none => (chunk0, end0)
  else (chunk0, end0)

/-- The while loop of chunk_text, fuel-indexed: each iteration appends
the stripped chunk and moves start to end - chunk_overlap, breaking when
the new start reaches the end of the text. -/
def chunkLoopF (text : List Char) (chunk_size chunk_overlap : Nat) :
    Nat → Int → List (List Char)
  | 0, _ => []
  | fuel + 1, start =>
    if start < (text.length : Int) then
      let ce := chunkIter text chunk_size start
      let start2 := ce.2 - (chunk_overlap : Int)
      pyStrip ce.1 ::
        (if start2 ≥ (text.length : Int) then []
         else chunkLoopF text chunk_size chunk_overlap fuel start2)
    else []

/-- DocumentProcessor.chunk_text for already-defaulted parameters
(`chunk_size or settings…` has been resolved by the caller, so
chunk_size ≥ 1): clamp the overlap below the chunk size and run the
loop.  Fuel text.length + 1 reproduces every terminating run of the
source loop; on inputs where the source loop diverges the model returns
the finite prefix the fuel allows. -/
def chunk_text (text : List Char) (chunk_size chunk_overlap : Nat) :
    List (List Char) :=
  if text = [] then []
  else
    let ov := min chunk_overlap (chunk_size - 1)
    chunkLoopF text chunk_size ov (text.length + 1) 0

/-! ## Text cleaning (DocumentProcessor._clean_text)

re.sub(r'X+', r, text) for a character class X is modelled by `subRuns`,
which replaces every maximal run of X characters by the single
character r. -/

/-- Replace maximal runs of characters satisfying p by the single
character r; the flag records whether the previous character was in a
run. -/
def subRuns (p : Char → Bool) (r : Char) : Bool → List Char → List Char
  | _, [] => []
  | inRun, c :: cs =>
    if p c then
      if inRun then subRuns p r true cs
      else r :: subRuns p r true cs
    else c :: subRuns p r false cs

/-- Characters kept by the conservative allow-list of _clean_text:
word characters, whitespace and the listed punctuation. -/
def isAllowedChar (c : Char) : Bool :=
  isWordChar c || isSpaceChar c ||
  [('.' : Char), ',', '!', '?', ';', ':', '-', '(', ')', '[', ']',
   '\x7b', '\x7d'].contains c

/-- DocumentProcessor._clean_text: collapse whitespace runs to a space,
blank out disallowed characters, normalize newline runs, collapse space
runs, and strip. -/
def clean_text (text : List Char) : List Char :=
  if text = [] then []
  else
    let t1 := subRuns isSpaceChar ' ' false text
    let t2 := t1.map (fun c => if isAllowedChar c then c else ' ')
    let t3 := subRuns (fun c => c == '\n') '\n' false t2
    let t4 := subRuns (fun c => c == ' ') ' ' false t3
    pyStrip t4

/-! ## Vector store (VectorStore)

The FAISS IndexFlatIP is modelled as the list of its vectors over ℚ
(`ntotal` is the list length, `d` the `dim` field); the insertion-ordered
Python dictionaries document_store and metadata_store become association
lists keyed by the numeric suffix of the "chunk_i" chunk ids; metadata
dictionaries become association lists from string keys to `MVal`
values. -/

/-- A metadata value: a string or a number. -/
inductive MVal where
  | str (s : String)
  | nat (n : Nat)
deriving DecidableEq, Repr

/-- A filter value: a scalar (exact match) or a list/tuple (membership). -/
inductive FVal where
  | scalar (v : MVal)
  | vals (vs : List MVal)
deriving DecidableEq, Repr

/-- A metadata dictionary. -/
abbrev Metadata := List (String × MVal)

/-- Python metadata.get(k). -/
def lookupMeta (md : Metadata) (k : String) : Option MVal :=
  (md.find? (fun p => p.1 == k)).map (fun p => p.2)

/-- Python d[k] = v on a string-keyed dict: replace in place or append. -/
def setKey (md : Metadata) (k : String) (v : MVal) : Metadata :=
  if md.any (fun p => p.1 == k) then
    md.map (fun p => if p.1 == k then (k, v) else p)
  else md ++ [(k, v)]

/-- Python d.get(k) on a chunk-id-keyed dict. -/
def lookupNat {α : Type} (l : List (Nat × α)) (k : Nat) : Option α :=
  (l.find? (fun p => p.1 == k)).map (fun p => p.2)

/-- Python d[k] = v on a chunk-id-keyed dict. -/
def setNat {α : Type} (l : List (Nat × α)) (k : Nat) (v : α) : List (Nat × α) :=
  if l.any (fun p => p.1 == k) then
    l.map (fun p => if p.1 == k then (k, v) else p)
  else l ++ [(k, v)]

/-- State owned by VectorStore: the FAISS index and the two parallel
stores. -/
structure VectorState where
  dim : Nat
  index : List (List Rat)
  document_store : List (Nat × String)
  metadata_store : List (Nat × Metadata)
deriving DecidableEq, Repr

/-- Contents of the persisted faiss_index.faiss / metadata.pkl pair. -/
structure PersistedPair where
  dim : Nat
  index : List (List Rat)
  documents : List (Nat × String)
  metadata : List (Nat × Metadata)
deriving DecidableEq, Repr

/-- VectorStore._initialize_index: load the persisted pair verbatim when
both files exist, otherwise create a fresh 1536-dimensional index. -/
def init_index (persisted : Option PersistedPair) : VectorState :=
  match persisted with
  | some p =>
    { dim := p.dim, index := p.index,
      document_store := p.documents, metadata_store := p.metadata }
  | none =>
    { dim := 1536, index := [], document_store := [], metadata_store := [] }

/-- A documents-list entry passed to add_documents_with_embeddings;
`none` models a dictionary missing the "content" (resp. "metadata") key,
whose access raises KeyError. -/
structure PyDoc where
  content : Option String
  metadata : Option Metadata
deriving DecidableEq, Repr

/-- Python `document_id or f"doc_{i}"` (empty strings are falsy). -/
def pyOrStr (x : Option String) (d : String) : String :=
  match x with
  | none => d
  | some s => if s = "" then d else s

/-- The per-document storing loop of add_documents_with_embeddings.  A
missing key raises KeyError, which the enclosing except block turns into
a `false` result — with every mutation made so far left in place. -/
def storeChunks (document_id : Option String) :
    List PyDoc → Nat → VectorState → Bool × VectorState
  | [], _, s => (true, s)
  | d :: ds, i, s =>
    match d.content with
    | none => (false, s)
    | some c =>
      let s1 := { s with document_store := setNat s.document_store i c }
      match d.metadata with
      | none => (false, s1)
      | some md =>
        let md2 :=
          setKey (setKey (setKey md
            "chunk_id" (MVal.str ("chunk_" ++ toString i)))
            "document_id" (MVal.str (pyOrStr document_id ("doc_" ++ toString i))))
            "embedding_index" (MVal.nat i)
        let s2 := { s1 with metadata_store := setNat s1.metadata_store i md2 }
        storeChunks document_id ds (i + 1) s2

/-- VectorStore.add_documents_with_embeddings: validate the batch, append
the embeddings to the FAISS index, then write the two stores entry by
entry.  A numpy/FAISS shape failure happens before any mutation; a
KeyError in the loop happens after the index was already extended. -/
def add_documents_with_embeddings (s : VectorState) (documents : List PyDoc)
    (embeddings : List (List Rat)) (document_id : Option String) :
    Bool × VectorState :=
  if documents.isEmpty || embeddings.isEmpty then (false, s)
  else if documents.length ≠ embeddings.length then (false, s)
  else if ¬ (embeddings.all (fun e => e.length == s.dim)) then (false, s)
  else
    let start_index := s.document_store.length
    storeChunks document_id documents start_index
      { s with index := s.index ++ embeddings }

/-- Inner product of two stored vectors. -/
def innerProd (u v : List Rat) : Rat :=
  (List.zipWith (fun a b => a * b) u v).sum

/-- Stable insertion: place `a` before the first element it may precede. -/
def insertBy {α : Type} (le : α → α → Bool) (a : α) : List α → List α
  | [] => [a]
  | b :: bs => if le a b then a :: b :: bs else b :: insertBy le a bs

/-- Stable insertion sort (models Python's stable list.sort). -/
def sortBy {α : Type} (le : α → α → Bool) (l : List α) : List α :=
  l.foldr (insertBy le) []

/-- FAISS IndexFlatIP.search: score every stored vector against the
query by inner product and return the k best (score, index) pairs,
ties resolved towards the earlier-inserted vector. -/
def faissSearch (index : List (List Rat)) (q : List Rat) (k : Nat) :
    List (Rat × Nat) :=
  let scored := index.enum.map (fun p => (innerProd q p.2, p.1))
  (sortBy (fun a b => decide (a.1 ≥ b.1)) scored).take k

/-- VectorStore._apply_filters: every filter key must be present in the
metadata and match (set membership for list/tuple values, equality
otherwise); a missing key fails the filter. -/
def apply_filters (metadata : Metadata) (filters : List (String × FVal)) :
    Bool :=
  filters.all (fun kv =>
    match lookupMeta metadata kv.1 with
    | none => false
    | some mv =>
      match kv.2 with
      | FVal.vals vs => vs.contains mv
      | FVal.scalar v => mv == v)

/-- Fields of SearchResult. -/
structure SearchResult where
  content : String
  metadata : Metadata
  relevance_score : Rat
  chunk_id : Nat
  document_id : MVal
deriving DecidableEq, Repr

def mkSearchResult (content : String) (md : Metadata) (score : Rat)
    (idx : Nat) : SearchResult :=
  { content := content, metadata := md, relevance_score := score,
    chunk_id := idx,
    document_id := (lookupMeta md "document_id").getD (MVal.str "unknown") }

/-- The result-building loop of VectorStore.search over the FAISS
candidates: skip ids absent from the document store, scores below the
threshold, and chunks rejected by the filters. -/
def searchLoop (s : VectorState) (similarity_threshold : Rat)
    (filters : List (String × FVal)) : List (Rat × Nat) → List SearchResult
  | [] => []
  | (score, idx) :: rest =>
    match lookupNat s.document_store idx with
    | none => searchLoop s similarity_threshold filters rest
    | some content =>
      if score < similarity_threshold then
        searchLoop s similarity_threshold filters rest
      else
        let md := (lookupNat s.metadata_store idx).getD []
        if !filters.isEmpty && !(apply_filters md filters) then
          searchLoop s similarity_threshold filters rest
        else
          mkSearchResult content md score idx ::
            searchLoop s similarity_threshold filters rest

/-- VectorStore.search. -/
def search (s : VectorState) (query_embedding : List Rat) (top_k : Nat)
    (similarity_threshold : Rat) (filters : List (String × FVal)) :
    List SearchResult :=
  if s.index.length == 0 then []
  else
    let cands := faissSearch s.index query_embedding (min top_k s.index.length)
    let results := searchLoop s similarity_threshold filters cands
    (sortBy (fun a b => decide (a.relevance_score ≥ b.relevance_score))
      results).take top_k

/-- VectorStore._rebuild_index: both branches install a brand-new, empty
1536-dimensional flat index — the embeddings of the surviving chunks are
not re-added (the source has no copy of them to re-add). -/
def rebuild_index (s : VectorState) : VectorState :=
  if s.document_store.isEmpty then { s with dim := 1536, index := [] }
  else { s with dim := 1536, index := [] }

/-- VectorStore.delete_document: drop every chunk whose metadata
document_id equals the argument from both stores, then rebuild the
index; succeeds trivially when nothing matches. -/
def delete_document (s : VectorState) (document_id : String) :
    Bool × VectorState :=
  let chunks_to_delete :=
    (s.metadata_store.filter
      (fun p => lookupMeta p.2 "document_id" == some (MVal.str document_id))).map
      (fun p => p.1)
  if chunks_to_delete.isEmpty then (true, s)
  else
    let s1 :=
      { s with
        document_store :=
          s.document_store.filter (fun p => !(chunks_to_delete.contains p.1)),
        metadata_store :=
          s.metadata_store.filter (fun p => !(chunks_to_delete.contains p.1)) }
    (true, rebuild_index s1)

/-! ## RAG pipeline (RAGPipeline.query) -/

/-- The two settings fields read by RAGPipeline.query. -/
structure RagSettings where
  top_k_results : Nat
  similarity_threshold : Rat
deriving DecidableEq, Repr

/-- Python `x or default` for an optional integer argument: None and 0
are both falsy. -/
def pyOrNat (x : Option Nat) (d : Nat) : Nat :=
  match x with
  | none => d
  | some v => if v = 0 then d else v

/-- Python `x or default` for an optional float argument: None and 0.0
are both falsy. -/
def pyOrRat (x : Option Rat) (d : Rat) : Rat :=
  match x with
  | none => d
  | some v => if v = 0 then d else v

/-- Fields of DocumentChunk. -/
structure DocumentChunk where
  content : String
  metadata : Metadata
  relevance_score : Rat
  chunk_id : Nat
  document_id : MVal
deriving DecidableEq, Repr

/-- Fields of RAGResult; the metadata dictionary of the source becomes
the three meta_* fields (processing_time is wall-clock and not
modelled). -/
structure RAGResult where
  documents : List DocumentChunk
  query : String
  total_results : Nat
  meta_top_k : Nat
  meta_similarity_threshold : Rat
  meta_filters_applied : List (String × FVal)
deriving DecidableEq, Repr

/-- RAGPipeline.query: default the falsy top_k / similarity_threshold
from settings, search the vector store with the resolved values,
re-check the threshold, sort descending by score, and report the
resolved values in the result metadata.  The embedding gateway is an
external collaborator, so the query embedding is a parameter. -/
def rag_query (settings : RagSettings) (s : VectorState) (query : String)
    (query_embedding : List Rat) (top_k : Option Nat)
    (similarity_threshold : Option Rat) (filters : List (String × FVal))
    (include_metadata : Bool) : RAGResult :=
  let tk := pyOrNat top_k settings.top_k_results
  let thr := pyOrRat similarity_threshold settings.similarity_threshold
  let search_results := search s query_embedding tk thr filters
  let processed :=
    (search_results.filter (fun r => decide (r.relevance_score ≥ thr))).map
      (fun r =>
        { content := r.content,
          metadata := if include_metadata then r.metadata else [],
          relevance_score := r.relevance_score,
          chunk_id := r.chunk_id,
          document_id := r.document_id : DocumentChunk })
  let sorted :=
    sortBy (fun a b => decide (a.relevance_score ≥ b.relevance_score)) processed
  { documents := sorted, query := query, total_results := sorted.length,
    meta_top_k := tk, meta_similarity_threshold := thr,
    meta_filters_applied := filters }

/-! ## Verification-support definitions -/

/-- A pattern alternative is well formed for the whitespace lemmas when
it is non-empty and starts with a non-whitespace character; every
alternative of every table above satisfies this. -/
def headNotSpace : List Char → Bool
  | [] => false
  | c :: _ => !(isSpaceChar c)

/-- Concrete input exhibiting the chunk_text infinite loop: a sentence
break at window index 8 with chunk_size 10 and overlap 9 moves the next
start back to exactly the current start. -/
def loopText : List Char := "abcdefgh.xyzabcdefgh".toList

/-- Concrete input keeping empty chunks: one letter followed by spaces. -/
def spacesText : List Char := "a          ".toList

/-- Persisted pair whose numeric store holds two vectors while the
metadata map holds a single record. -/
def mismatchedPair : PersistedPair :=
  { dim := 2, index := [[(1 : Rat), 0], [0, (1 : Rat)]],
    documents := [(0, "chunk zero")],
    metadata := [(0, [("document_id", MVal.str "doc_a")])] }

/-- A fresh store as the constructor builds it. -/
def freshState : VectorState := init_index none

/-- A well-formed single-chunk document batch. -/
def okDoc (t : String) : PyDoc := { content := some t, metadata := some [] }

/-- A documents entry whose dictionary is missing the "content" key. -/
def badDoc : PyDoc := { content := none, metadata := some [("title", MVal.str "t")] }

/-- A 1536-dimensional embedding, matching the fresh index dimension. -/
def embOne : List Rat := List.replicate 1536 (1 : Rat)

/-- A second, distinct 1536-dimensional embedding. -/
def embHalf : List Rat := List.replicate 1536 ((1 : Rat) / 2)

/-- State after ingesting document doc_a and then document doc_b into a
fresh store. -/
def twoDocState : VectorState :=
  (add_documents_with_embeddings
    (add_documents_with_embeddings freshState [okDoc "alpha"] [embOne] (some "doc_a")).2
    [okDoc "beta"] [embHalf] (some "doc_b")).2

/-- Store with one chunk whose metadata lacks the "category" key. -/
def oneChunkState : VectorState :=
  { dim := 1, index := [[(1 : Rat)]],
    document_store := [(0, "a chunk")],
    metadata_store := [(0, [("title", MVal.str "t")])] }

/-- Filter on the "category" key, which oneChunkState does not carry. -/
def categoryFilters : List (String × FVal) :=
  [("category", FVal.scalar (MVal.str "cardiology"))]

/-- No two adjacent characters of the list both satisfy p; the shape
invariant maintained by the run-collapsing substitutions of
_clean_text. -/
def noDoubles (p : Char → Bool) : List Char → Bool
  | c :: d :: rest => (!(p c && p d)) && noDoubles p (d :: rest)
  | _ => true

/-! ## Lemmas about the safety filter -/

theorem lowerChar_of_space {c : Char} (h : isSpaceChar c = true) :
    lowerChar c = c := by
  simp only [isSpaceChar, Bool.or_eq_true, beq_iff_eq] at h
  unfold lowerChar
  rw [if_neg]
  omega

theorem lowerStr_of_all_space {s : List Char} (h : s.all isSpaceChar = true) :
    lowerStr s = s := by
  induction s with
  | nil => rfl
  | cons c cs ih =>
    simp only [List.all_cons, Bool.and_eq_true] at h
    simp only [lowerStr, List.map_cons, lowerChar_of_space h.1, List.cons.injEq,
      true_and]
    simpa [lowerStr] using ih h.2

/-- No alternative that starts with a non-space character can match at a
whitespace position. -/
theorem tryAlts_none_of_space {alts : List (List Char)} {c : Char}
    {cs : List Char} (halts : alts.all headNotSpace = true)
    (hc : isSpaceChar c = true) : tryAlts alts (c :: cs) = none := by
  induction alts with
  | nil => rfl
  | cons a rest ih =>
    simp only [List.all_cons, Bool.and_eq_true] at halts
    obtain ⟨ha, hrest⟩ := halts
    unfold tryAlts
    rw [if_neg, ih hrest]
    cases a with
    | nil => simp [headNotSpace] at ha
    | cons a0 as =>
      simp only [headNotSpace, Bool.not_eq_true'] at ha
      intro hcontra
      simp only [Bool.and_eq_true, List.isPrefixOf] at hcontra
      have h0 : a0 = c := by
        have := hcontra.1.1
        exact beq_iff_eq.mp this
      rw [h0, hc] at ha
      exact Bool.noConfusion ha

/-- A whitespace-only string matches no well-formed pattern. -/
theorem countMatchesF_all_space {alts : List (List Char)}
    (halts : alts.all headNotSpace = true) :
    ∀ (fuel : Nat) (b : Bool) (s : List Char), s.all isSpaceChar = true →
      countMatchesF alts fuel b s = 0 := by
  intro fuel
  induction fuel with
  | zero => intro b s _; rfl
  | succ n ih =>
    intro b s hs
    cases s with
    | nil => rfl
    | cons c cs =>
      simp only [List.all_cons, Bool.and_eq_true] at hs
      cases b with
      | true => simpa [countMatchesF] using ih _ _ hs.2
      | false =>
        simp only [countMatchesF, Bool.false_eq_true, if_false,
          tryAlts_none_of_space halts hs.1]
        exact ih _ _ hs.2

/-- A whitespace-only string scores zero on any table of well-formed
patterns. -/
theorem tierScore_all_space {tier : List (List (List Char))}
    (ht : tier.all (fun p => p.all headNotSpace) = true)
    {s : List Char} (hs : s.all isSpaceChar = true) : tierScore tier s = 0 := by
  unfold tierScore
  rw [List.sum_eq_zero]
  intro x hx
  simp only [List.mem_map] at hx
  obtain ⟨p, hp, rfl⟩ := hx
  exact countMatchesF_all_space (List.all_eq_true.mp ht p hp) _ _ _ hs

/-- The advice severity is high exactly when at least three advice
patterns matched. -/
theorem severity_high_iff (content : List Char) :
    (detect_medical_advice content).severity = Severity.high ↔
      3 ≤ (detect_medical_advice content).advice_count := by
  unfold detect_medical_advice
  by_cases h : 3 ≤ tierScore medical_advice_patterns (lowerStr content)
  · simp [ge_iff_le, h]
  · by_cases h1 : 1 ≤ tierScore medical_advice_patterns (lowerStr content) <;>
      simp [ge_iff_le, h, h1]

/-- C6.  For every text, check_content reports unsafe exactly when the
weighted risk total (critical matches x 10 + high x 5 + medium x 2 +
low x 1) reaches 20, or at least three medical-advice patterns matched
(advice severity high), or at least one critical-tier pattern matched;
otherwise the content is reported safe.  Empty and whitespace-only
texts fall into the safe side, with every score zero. -/
theorem c6_safety_verdict_iff (content : List Char) :
    (check_content content).is_safe = false ↔
      20 ≤ (assess_content_risk content).total_risk
      ∨ 3 ≤ (detect_medical_advice content).advice_count
      ∨ 0 < (assess_content_risk content).risk_scores.critical := by
  unfold check_content
  by_cases hws : content.all isSpaceChar = true
  · rw [if_pos hws]
    have hlow := lowerStr_of_all_space hws
    have hc : tierScore critical_patterns (lowerStr content) = 0 := by
      rw [hlow]; exact tierScore_all_space (by decide) hws
    have hh : tierScore high_patterns (lowerStr content) = 0 := by
      rw [hlow]; exact tierScore_all_space (by decide) hws
    have hm : tierScore medium_patterns (lowerStr content) = 0 := by
      rw [hlow]; exact tierScore_all_space (by decide) hws
    have hl : tierScore low_patterns (lowerStr content) = 0 := by
      rw [hlow]; exact tierScore_all_space (by decide) hws
    have ha : tierScore medical_advice_patterns (lowerStr content) = 0 := by
      rw [hlow]; exact tierScore_all_space (by decide) hws
    simp [assess_content_risk, detect_medical_advice, hc, hh, hm, hl, ha]
  · rw [if_neg hws]
    have hsev := severity_high_iff content
    dsimp only
    unfold determine_safety
    by_cases h1 : 20 ≤ (assess_content_risk content).total_risk
    · simp [ge_iff_le, h1]
    · by_cases h2 : (detect_medical_advice content).severity = Severity.high
      · simp [ge_iff_le, h1, h2, hsev.mp h2]
      · by_cases h3 : 0 < (assess_content_risk content).risk_scores.critical
        · simp [ge_iff_le, h1, h2, h3]
        · have h2c : ¬ 3 ≤ (detect_medical_advice content).advice_count :=
            fun hcnt => h2 (hsev.mpr hcnt)
          simp only [ge_iff_le, h1, if_false, h2, h3, gt_iff_lt, if_true,
            Bool.true_eq_false, false_iff]
          simpa using h2c

/-- C1.  Every canned fallback produced by generate_safe_response is
itself flagged unsafe by check_content: each of the four response
templates contains critical-tier vocabulary ("emergency", "diagnose",
"treatment", "diagnosis"), so the classifier rejects all of them. -/
theorem c1_generate_safe_response_flagged (user_message : List Char) :
    (check_content (generate_safe_response user_message)).is_safe = false := by
  unfold generate_safe_response
  dsimp only
  split
  · decide
  · split
    · decide
    · split
      · decide
      · decide

/-! ## Claims about the vector store and the pipeline -/

/-- C5 (amended).  Loading a persisted pair performs no size-consistency
validation at all: _initialize_index installs the pair verbatim, for
every pair, mismatched or not, and no CorruptIndexError exists in the
code. -/
theorem c5_load_no_validation (p : PersistedPair) :
    init_index (some p)
      = { dim := p.dim, index := p.index, document_store := p.documents,
          metadata_store := p.metadata } := rfl

/-- C5 (counterexample).  A persisted pair whose numeric store holds two
vectors but whose metadata map holds one record is accepted by load as
is: the load succeeds (no CorruptIndexError path exists) and the
resulting state is out of lock-step. -/
theorem c5_load_accepts_mismatched_pair_cex :
    (init_index (some mismatchedPair)).index.length = 2
    ∧ (init_index (some mismatchedPair)).metadata_store.length = 1
    ∧ (init_index (some mismatchedPair)).document_store.length = 1 := by
  decide

/-- C9.  RAGPipeline.query treats a caller-supplied top_k of 0 and a
similarity_threshold of 0.0 exactly like absent arguments: the query
result is identical to the one computed with the settings defaults, and
the metadata of a zeros call reports the settings defaults, not the
caller's zeros. -/
theorem c9_query_falsy_defaults (settings : RagSettings) (s : VectorState)
    (query : String) (query_embedding : List Rat) (tk : Option Nat)
    (thr : Option Rat) (filters : List (String × FVal))
    (include_metadata : Bool) :
    rag_query settings s query query_embedding (some 0) thr filters
        include_metadata
      = rag_query settings s query query_embedding Option.none thr filters
        include_metadata
    ∧ rag_query settings s query query_embedding tk (some 0) filters
        include_metadata
      = rag_query settings s query query_embedding tk Option.none filters
        include_metadata
    ∧ (rag_query settings s query query_embedding (some 0) (some 0) filters
        include_metadata).meta_top_k = settings.top_k_results
    ∧ (rag_query settings s query query_embedding (some 0) (some 0) filters
        include_metadata).meta_similarity_threshold
      = settings.similarity_threshold := by
  refine ⟨?_, ?_, ?_, ?_⟩ <;> simp [rag_query, pyOrNat, pyOrRat]

/-- C3.  The chunk_text loop does not always advance: on a text whose
window of size 10 has a sentence break at index 8, with overlap 9, the
end is pulled back to start + 9 and the next start is again the current
start, so the source while loop repeats the same iteration forever (the
model emits one identical chunk per unit of fuel and never reaches the
exit condition). -/
theorem c3_chunk_loop_no_progress :
    (chunkIter loopText 10 0).2 - (9 : Int) = 0
    ∧ ((0 : Int) < (loopText.length : Int))
    ∧ (∀ fuel : Nat, chunkLoopF loopText 10 9 fuel 0
        = List.replicate fuel "abcdefgh.".toList)
    ∧ chunk_text loopText 10 9
        = List.replicate (loopText.length + 1) "abcdefgh.".toList := by
  have hstep : ∀ n : Nat, chunkLoopF loopText 10 9 (n + 1) 0
      = "abcdefgh.".toList :: chunkLoopF loopText 10 9 n 0 := fun n => rfl
  have hloop : ∀ fuel : Nat, chunkLoopF loopText 10 9 fuel 0
      = List.replicate fuel "abcdefgh.".toList := by
    intro fuel
    induction fuel with
    | zero => rfl
    | succ n ih => rw [hstep, ih, List.replicate_succ]
  refine ⟨by decide, by decide, hloop, ?_⟩
  have h21 := hloop (loopText.length + 1)
  simpa [chunk_text] using h21

/-- C2.  Ingesting two one-chunk documents into a fresh store and then
deleting the first one reports success but resets the numeric index to
empty: the surviving chunk of doc_b keeps its content/metadata records
while its embedding is gone, so the index does not contain the surviving
embeddings and the numeric store size (0) differs from the size (1) of
the two maps. -/
theorem c2_delete_document_empties_index :
    twoDocState.index.length = 2
    ∧ twoDocState.document_store.length = 2
    ∧ (delete_document twoDocState "doc_a").1 = true
    ∧ (delete_document twoDocState "doc_a").2.index = []
    ∧ (delete_document twoDocState "doc_a").2.document_store.length = 1
    ∧ (delete_document twoDocState "doc_a").2.metadata_store.length = 1
    ∧ lookupNat (delete_document twoDocState "doc_a").2.document_store 1
      = some "beta" := by
  decide

/-- C4 (counterexample).  Adding a batch whose single document lacks the
"content" key fails after the embedding has already been appended to
the FAISS index: the call returns failure, yet the numeric store now
holds one vector while both maps are still empty — nothing was rolled
back. -/
theorem c4_add_not_rolled_back_cex :
    (add_documents_with_embeddings freshState [badDoc] [embOne] Option.none).1
      = false
    ∧ (add_documents_with_embeddings freshState [badDoc] [embOne]
        Option.none).2.index ≠ freshState.index
    ∧ (add_documents_with_embeddings freshState [badDoc] [embOne]
        Option.none).2.index.length = 1
    ∧ (add_documents_with_embeddings freshState [badDoc] [embOne]
        Option.none).2.document_store = []
    ∧ (add_documents_with_embeddings freshState [badDoc] [embOne]
        Option.none).2.metadata_store = [] := by
  decide

/-- C4 (amended).  add_documents_with_embeddings is not atomic: the
embeddings are appended to the numeric store before the maps are
written, and when writing the maps fails (here: the first document has
no "content" key) the call returns failure with the appended vectors
left in the numeric store and no rollback performed. -/
theorem c4_add_failure_keeps_appended_vectors (s : VectorState)
    (md : Option Metadata) (rest : List PyDoc)
    (embeddings : List (List Rat)) (document_id : Option String)
    (hlen : rest.length + 1 = embeddings.length)
    (hdim : embeddings.all (fun e => e.length == s.dim) = true) :
    add_documents_with_embeddings s
        ({ content := Option.none, metadata := md } :: rest) embeddings
        document_id
      = (false, { s with index := s.index ++ embeddings }) := by
  cases embeddings with
  | nil => simp at hlen
  | cons e es =>
    unfold add_documents_with_embeddings
    rw [if_neg, if_neg, if_neg]
    · rfl
    · intro hcon
      rw [hdim] at hcon
      exact hcon rfl
    · intro hcon
      simp only [List.length_cons] at hcon hlen
      omega
    · intro hcon
      simp at hcon

/-- C4 (witness). -/
theorem c4_add_failure_witness :
    add_documents_with_embeddings freshState [badDoc] [embOne] Option.none
      = (false, { freshState with index := freshState.index ++ [embOne] }) :=
  c4_add_failure_keeps_appended_vectors freshState
    (some [("title", MVal.str "t")]) [] [embOne] Option.none (by decide)
    (by decide)

/-! ## Membership lemmas for the stable sort and the search loop -/

theorem mem_insertBy {α : Type} {le : α → α → Bool} {a x : α} {l : List α}
    (h : x ∈ insertBy le a l) : x = a ∨ x ∈ l := by
  induction l with
  | nil => simpa [insertBy] using h
  | cons b bs ih =>
    unfold insertBy at h
    split at h
    · simpa using h
    · rcases List.mem_cons.mp h with h1 | h2
      · exact Or.inr (List.mem_cons.mpr (Or.inl h1))
      · rcases ih h2 with h3 | h4
        · exact Or.inl h3
        · exact Or.inr (List.mem_cons.mpr (Or.inr h4))

theorem mem_sortBy {α : Type} {le : α → α → Bool} {x : α} {l : List α}
    (h : x ∈ sortBy le l) : x ∈ l := by
  induction l with
  | nil => simp [sortBy] at h
  | cons b bs ih =>
    simp only [sortBy, List.foldr_cons] at h
    rcases mem_insertBy h with h1 | h2
    · exact List.mem_cons.mpr (Or.inl h1)
    · exact List.mem_cons.mpr (Or.inr (ih h2))

/-- A filter entry whose key is absent from the metadata makes
_apply_filters reject the chunk. -/
theorem apply_filters_missing {md : Metadata} {filters : List (String × FVal)}
    {key : String} {fv : FVal} (hmem : (key, fv) ∈ filters)
    (hmiss : lookupMeta md key = Option.none) :
    apply_filters md filters = false := by
  cases h : apply_filters md filters with
  | false => rfl
  | true =>
    exfalso
    unfold apply_filters at h
    have hkv := List.all_eq_true.mp h (key, fv) hmem
    simp only [hmiss] at hkv
    exact Bool.noConfusion hkv

/-- Every result the search loop emits passed _apply_filters (when
filters were supplied) on the metadata of its own chunk id. -/
theorem searchLoop_filters_pass {s : VectorState} {thr : Rat}
    {filters : List (String × FVal)} {r : SearchResult}
    {cands : List (Rat × Nat)} (hr : r ∈ searchLoop s thr filters cands)
    (hf : filters ≠ []) :
    apply_filters ((lookupNat s.metadata_store r.chunk_id).getD []) filters
      = true := by
  have hie : filters.isEmpty = false := by
    cases filters with
    | nil => exact absurd rfl hf
    | cons a as => rfl
  induction cands with
  | nil => simp [searchLoop] at hr
  | cons c rest ih =>
    obtain ⟨score, idx⟩ := c
    simp only [searchLoop] at hr
    split at hr
    · exact ih hr
    · split at hr
      · exact ih hr
      · split at hr
        · exact ih hr
        · next hfl =>
          rcases List.mem_cons.mp hr with h1 | h2
          · subst h1
            show apply_filters ((lookupNat s.metadata_store idx).getD [])
              filters = true
            simp only [hie, Bool.not_false, Bool.true_and,
              Bool.not_eq_true', Bool.not_eq_false] at hfl
            exact hfl
          · exact ih h2

/-- C10.  A stored chunk whose metadata lacks one of the filter keys is
never returned by search when a non-empty filter mapping is supplied:
the missing key counts as a non-match and the chunk is silently skipped,
not an error. -/
theorem c10_missing_filter_key_excluded (s : VectorState)
    (query_embedding : List Rat) (top_k : Nat) (thr : Rat)
    (filters : List (String × FVal)) (key : String) (fv : FVal) (cid : Nat)
    (hmem : (key, fv) ∈ filters)
    (hmiss : lookupMeta ((lookupNat s.metadata_store cid).getD []) key
      = Option.none) :
    cid ∉ (search s query_embedding top_k thr filters).map
      SearchResult.chunk_id := by
  intro hin
  simp only [List.mem_map] at hin
  obtain ⟨r, hr, hcid⟩ := hin
  have hf : filters ≠ [] := by
    intro h
    rw [h] at hmem
    simp at hmem
  unfold search at hr
  by_cases hz : (s.index.length == 0) = true
  · rw [if_pos hz] at hr
    simp at hr
  · rw [if_neg hz] at hr
    have hr2 := mem_sortBy (List.mem_of_mem_take hr)
    have hpass := searchLoop_filters_pass hr2 hf
    rw [hcid] at hpass
    have hfail := apply_filters_missing hmem hmiss
    rw [hpass] at hfail
    exact Bool.noConfusion hfail

/-- C10 (witness). -/
theorem c10_missing_filter_key_witness :
    (0 : Nat) ∉ (search oneChunkState [(1 : Rat)] 5 0 categoryFilters).map
      SearchResult.chunk_id :=
  c10_missing_filter_key_excluded oneChunkState [(1 : Rat)] 5 0
    categoryFilters "category" (FVal.scalar (MVal.str "cardiology")) 0
    (by decide) (by decide)

/-! ## Stripping lemmas for the chunker -/

theorem dropTrailingSpaces_head? (l : List Char) :
    dropTrailingSpaces l = [] ∨ (dropTrailingSpaces l).head? = l.head? := by
  induction l with
  | nil => exact Or.inl rfl
  | cons c cs _ =>
    unfold dropTrailingSpaces
    cases h : dropTrailingSpaces cs with
    | nil =>
      by_cases hc : isSpaceChar c
      · exact Or.inl (by simp [hc])
      · right
        simp [hc]
    | cons x xs =>
      right
      simp

theorem dropTrailingSpaces_idem (l : List Char) :
    dropTrailingSpaces (dropTrailingSpaces l) = dropTrailingSpaces l := by
  induction l with
  | nil => rfl
  | cons c cs ih =>
    have hc2 : dropTrailingSpaces (c :: cs) =
        match dropTrailingSpaces cs with
        | [] => if isSpaceChar c then [] else [c]
        | r => c :: r := rfl
    cases h : dropTrailingSpaces cs with
    | nil =>
      rw [hc2, h]
      by_cases hc : isSpaceChar c
      · simp only [hc, if_pos]
        rfl
      · simp [hc, dropTrailingSpaces]
    | cons x xs =>
      rw [h] at ih
      rw [hc2, h]
      have hc3 : dropTrailingSpaces (c :: x :: xs) =
          match dropTrailingSpaces (x :: xs) with
          | [] => if isSpaceChar c then [] else [c]
          | r => c :: r := rfl
      rw [hc3, ih]

theorem dropWhile_head_false {p : Char → Bool} {l : List Char} {c : Char}
    {cs : List Char} (h : l.dropWhile p = c :: cs) : p c = false := by
  have hh := List.head?_dropWhile_not p l
  rw [h] at hh
  exact hh

theorem dropWhile_of_head_false {p : Char → Bool} {c : Char} {cs : List Char}
    (h : p c = false) : (c :: cs).dropWhile p = c :: cs := by
  simp [List.dropWhile_cons, h]

/-- Python str.strip() is idempotent. -/
theorem pyStrip_idem (l : List Char) : pyStrip (pyStrip l) = pyStrip l := by
  unfold pyStrip dropLeadingSpaces
  rcases dropTrailingSpaces_head? (l.dropWhile isSpaceChar) with h | h
  · rw [h]
    rfl
  · cases hdtu : dropTrailingSpaces (l.dropWhile isSpaceChar) with
    | nil => rfl
    | cons x xs =>
      rw [hdtu] at h
      cases hu2 : List.dropWhile isSpaceChar l with
      | nil =>
        rw [hu2] at h
        simp at h
      | cons y ys =>
        have hxy : x = y := by
          rw [hu2] at h
          simpa using h
        have hy : isSpaceChar y = false := dropWhile_head_false hu2
        rw [dropWhile_of_head_false (hxy ▸ hy), ← hdtu,
          dropTrailingSpaces_idem]

/-- Every chunk the loop emits is its own strip. -/
theorem chunkLoopF_all_stripped (text : List Char)
    (chunk_size chunk_overlap : Nat) :
    ∀ (fuel : Nat) (start : Int),
      ∀ c ∈ chunkLoopF text chunk_size chunk_overlap fuel start,
        pyStrip c = c := by
  intro fuel
  induction fuel with
  | zero =>
    intro start c hc
    simp [chunkLoopF] at hc
  | succ n ih =>
    intro start c hc
    simp only [chunkLoopF] at hc
    by_cases hs : start < (text.length : Int)
    · rw [if_pos hs] at hc
      rcases List.mem_cons.mp hc with h1 | h2
      · rw [h1]
        exact pyStrip_idem _
      · by_cases hend : (chunkIter text chunk_size start).2
            - (chunk_overlap : Int) ≥ (text.length : Int)
        · rw [if_pos hend] at h2
          simp at h2
        · rw [if_neg hend] at h2
          exact ih _ c h2
    · rw [if_neg hs] at hc
      simp at hc

/-- C7 (amended).  Every chunk chunk_text returns is stripped of leading
and trailing whitespace; chunks that strip to the empty string are
nevertheless kept in the output (see the counterexample below), not
dropped. -/
theorem c7_chunks_stripped (text : List Char) (chunk_size chunk_overlap : Nat) :
    (chunk_text text chunk_size chunk_overlap).all
      (fun c => pyStrip c == c) = true := by
  unfold chunk_text
  split
  · rfl
  · rw [List.all_eq_true]
    intro x hx
    exact beq_iff_eq.mpr
      (chunkLoopF_all_stripped text chunk_size _ _ _ x hx)

/-- C7 (counterexample).  On one letter followed by ten spaces, with
chunk_size 5 and overlap 3, five of the six returned chunks strip to
the empty string and all five stay in the output. -/
theorem c7_empty_chunk_kept_cex :
    ([] : List Char) ∈ chunk_text spacesText 5 3
    ∧ chunk_text spacesText 5 3 = ["a".toList, [], [], [], [], []] := by
  decide

/-! ## Run-collapsing lemmas for the text cleaner -/

theorem andE_left {a b : Bool} (h : (a && b) = true) : a = true := by
  rw [Bool.and_eq_true] at h
  exact h.1

theorem andE_right {a b : Bool} (h : (a && b) = true) : b = true := by
  rw [Bool.and_eq_true] at h
  exact h.2

theorem mem_subRuns {p : Char → Bool} {r : Char} {b : Bool} {l : List Char}
    {x : Char} (h : x ∈ subRuns p r b l) :
    x = r ∨ (x ∈ l ∧ p x = false) := by
  induction l generalizing b with
  | nil => simp [subRuns] at h
  | cons c cs ih =>
    unfold subRuns at h
    by_cases hc : p c
    · rw [if_pos hc] at h
      cases b with
      | true =>
        rw [if_pos rfl] at h
        rcases ih h with h1 | h2
        · exact Or.inl h1
        · exact Or.inr ⟨List.mem_cons.mpr (Or.inr h2.1), h2.2⟩
      | false =>
        rw [if_neg (by simp)] at h
        rcases List.mem_cons.mp h with h1 | h2
        · exact Or.inl h1
        · rcases ih h2 with h3 | h4
          · exact Or.inl h3
          · exact Or.inr ⟨List.mem_cons.mpr (Or.inr h4.1), h4.2⟩
    · rw [if_neg hc] at h
      rcases List.mem_cons.mp h with h1 | h2
      · refine Or.inr ⟨List.mem_cons.mpr (Or.inl h1), ?_⟩
        rw [h1]
        exact Bool.of_not_eq_true hc
      · rcases ih h2 with h3 | h4
        · exact Or.inl h3
        · exact Or.inr ⟨List.mem_cons.mpr (Or.inr h4.1), h4.2⟩

/-- Inside a run, the next character the substitution emits does not
satisfy p. -/
theorem head_subRuns_true {p : Char → Bool} {r : Char} {l : List Char}
    {x : Char} (h : (subRuns p r true l).head? = some x) : p x = false := by
  induction l with
  | nil => simp [subRuns] at h
  | cons c cs ih =>
    unfold subRuns at h
    by_cases hc : p c
    · rw [if_pos hc, if_pos rfl] at h
      exact ih h
    · rw [if_neg hc] at h
      simp only [List.head?_cons, Option.some.injEq] at h
      rw [← h]
      exact Bool.of_not_eq_true hc

theorem noDoubles_tail {p : Char → Bool} {c : Char} {l : List Char}
    (h : noDoubles p (c :: l) = true) : noDoubles p l = true := by
  cases l with
  | nil => rfl
  | cons d ds =>
    unfold noDoubles at h
    exact andE_right h

theorem noDoubles_cons {p : Char → Bool} {c : Char} {l : List Char}
    (hhead : ∀ d, l.head? = some d → (p c && p d) = false)
    (h : noDoubles p l = true) : noDoubles p (c :: l) = true := by
  cases l with
  | nil => rfl
  | cons d ds =>
    unfold noDoubles
    rw [hhead d rfl, h]
    rfl

/-- The run-collapsing substitution never emits two adjacent characters
of the collapsed class. -/
theorem noDoubles_subRuns (p : Char → Bool) (r : Char) (b : Bool)
    (l : List Char) : noDoubles p (subRuns p r b l) = true := by
  induction l generalizing b with
  | nil => rfl
  | cons c cs ih =>
    unfold subRuns
    by_cases hc : p c
    · rw [if_pos hc]
      cases b with
      | true =>
        rw [if_pos rfl]
        exact ih true
      | false =>
        rw [if_neg (by simp)]
        refine noDoubles_cons ?_ (ih true)
        intro d hd
        rw [head_subRuns_true hd, Bool.and_false]
    · rw [if_neg hc]
      refine noDoubles_cons ?_ (ih false)
      intro d _
      rw [Bool.of_not_eq_true hc, Bool.false_and]

/-- Starting inside or outside a run makes no difference when the next
character is not in the class. -/
theorem subRuns_true_eq_false {p : Char → Bool} {r : Char} {l : List Char}
    (h : ∀ d, l.head? = some d → p d = false) :
    subRuns p r true l = subRuns p r false l := by
  cases l with
  | nil => rfl
  | cons c cs =>
    unfold subRuns
    rw [h c rfl]
    simp

/-- On a list with no adjacent class characters whose class characters
all equal the replacement, the substitution is the identity. -/
theorem subRuns_eq_self {p : Char → Bool} {r : Char} {l : List Char}
    (hnd : noDoubles p l = true) (hall : ∀ c ∈ l, p c = true → c = r) :
    subRuns p r false l = l := by
  induction l with
  | nil => rfl
  | cons c cs ih =>
    unfold subRuns
    by_cases hc : p c
    · rw [if_pos hc, if_neg (by simp)]
      have hcr : c = r := hall c (List.mem_cons_self c cs) hc
      have hhead : ∀ d, cs.head? = some d → p d = false := by
        intro d hd
        cases cs with
        | nil => simp at hd
        | cons e es =>
          simp only [List.head?_cons, Option.some.injEq] at hd
          unfold noDoubles at hnd
          have h1 := andE_left hnd
          rw [hc] at h1
          simp only [Bool.true_and, Bool.not_eq_true'] at h1
          rw [hd] at h1
          exact h1
      rw [subRuns_true_eq_false hhead,
        ih (noDoubles_tail hnd)
          (fun d hd hpd => hall d (List.mem_cons.mpr (Or.inr hd)) hpd), hcr]
    · rw [if_neg hc,
        ih (noDoubles_tail hnd)
          (fun d hd hpd => hall d (List.mem_cons.mpr (Or.inr hd)) hpd)]

theorem noDoubles_of_all_false {p : Char → Bool} {l : List Char}
    (h : ∀ c ∈ l, p c = false) : noDoubles p l = true := by
  induction l with
  | nil => rfl
  | cons c cs ih =>
    refine noDoubles_cons ?_ (ih fun d hd => h d (List.mem_cons.mpr (Or.inr hd)))
    intro d _
    rw [h c (List.mem_cons_self c cs), Bool.false_and]

theorem map_allowed_eq_self {l : List Char}
    (h : ∀ c ∈ l, isAllowedChar c = true) :
    l.map (fun c => if isAllowedChar c then c else ' ') = l := by
  induction l with
  | nil => rfl
  | cons c cs ih =>
    simp only [List.map_cons, if_pos (h c (List.mem_cons_self c cs)),
      List.cons.injEq, true_and]
    exact ih fun d hd => h d (List.mem_cons.mpr (Or.inr hd))

theorem mem_dropTrailingSpaces {l : List Char} {x : Char}
    (h : x ∈ dropTrailingSpaces l) : x ∈ l := by
  induction l with
  | nil => simp [dropTrailingSpaces] at h
  | cons c cs ih =>
    unfold dropTrailingSpaces at h
    cases hr : dropTrailingSpaces cs with
    | nil =>
      rw [hr] at h
      by_cases hc : isSpaceChar c
      · rw [if_pos hc] at h
        simp at h
      · rw [if_neg hc] at h
        simp only [List.mem_singleton] at h
        exact List.mem_cons.mpr (Or.inl h)
    | cons y ys =>
      rw [hr] at h
      rcases List.mem_cons.mp h with h1 | h2
      · exact List.mem_cons.mpr (Or.inl h1)
      · exact List.mem_cons.mpr (Or.inr (ih (hr ▸ h2)))

theorem mem_pyStrip {l : List Char} {x : Char} (h : x ∈ pyStrip l) : x ∈ l := by
  unfold pyStrip dropLeadingSpaces at h
  exact (List.dropWhile_sublist isSpaceChar).subset (mem_dropTrailingSpaces h)

theorem noDoubles_dropWhile {p q : Char → Bool} {l : List Char}
    (h : noDoubles p l = true) : noDoubles p (l.dropWhile q) = true := by
  induction l with
  | nil => rfl
  | cons c cs ih =>
    rw [List.dropWhile_cons]
    by_cases hc : q c
    · rw [if_pos hc]
      exact ih (noDoubles_tail h)
    · rw [if_neg hc]
      exact h

theorem noDoubles_dropTrailingSpaces {p : Char → Bool} {l : List Char}
    (h : noDoubles p l = true) : noDoubles p (dropTrailingSpaces l) = true := by
  induction l with
  | nil => rfl
  | cons c cs ih =>
    unfold dropTrailingSpaces
    cases hr : dropTrailingSpaces cs with
    | nil =>
      by_cases hc : isSpaceChar c
      · rw [if_pos hc]
        rfl
      · rw [if_neg hc]
        rfl
    | cons y ys =>
      have hnd := ih (noDoubles_tail h)
      rw [hr] at hnd
      refine noDoubles_cons ?_ hnd
      intro d hd
      simp only [List.head?_cons, Option.some.injEq] at hd
      rcases dropTrailingSpaces_head? cs with he | he
      · rw [he] at hr
        exact List.noConfusion hr
      · rw [hr] at he
        simp only [List.head?_cons] at he
        cases cs with
        | nil => simp at he
        | cons e es =>
          simp only [List.head?_cons, Option.some.injEq] at he
          unfold noDoubles at h
          have h1 := andE_left h
          rw [← hd, he]
          cases hpc : p c with
          | false => rw [Bool.false_and]
          | true =>
            have h2 : p e = false := by simpa [hpc] using h1
            rw [h2, Bool.and_false]

theorem noDoubles_space_of_eq {l : List Char}
    (hsp : ∀ c ∈ l, isSpaceChar c = true → c = ' ')
    (h : noDoubles (fun c => c == ' ') l = true) :
    noDoubles isSpaceChar l = true := by
  induction l with
  | nil => rfl
  | cons c cs ih =>
    refine noDoubles_cons ?_
      (ih (fun d hd => hsp d (List.mem_cons.mpr (Or.inr hd)))
        (noDoubles_tail h))
    intro d hd
    by_cases hc : isSpaceChar c
    · by_cases hdsp : isSpaceChar d
      · exfalso
        have hc2 : c = ' ' := hsp c (List.mem_cons_self c cs) hc
        have hd2 : d = ' ' := by
          refine hsp d ?_ hdsp
          cases cs with
          | nil => simp at hd
          | cons e es =>
            simp only [List.head?_cons, Option.some.injEq] at hd
            exact List.mem_cons.mpr (Or.inr (hd ▸ List.mem_cons_self e es))
        cases cs with
        | nil => simp at hd
        | cons e es =>
          simp only [List.head?_cons, Option.some.injEq] at hd
          unfold noDoubles at h
          have h1 := andE_left h
          rw [hc2] at h1
          rw [hd] at h1
          rw [hd2] at h1
          simp at h1
      · rw [Bool.of_not_eq_true hdsp, Bool.and_false]
    · rw [Bool.of_not_eq_true hc, Bool.false_and]

/-- C8.  _clean_text is idempotent: after one pass the text contains
only allowed characters, its only whitespace is isolated single spaces,
and it is stripped, so each of the five substitution stages of a second
pass is the identity. -/
theorem c8_clean_text_idempotent (x : List Char) :
    clean_text (clean_text x) = clean_text x := by
  by_cases hx : x = []
  · rw [hx]
    rfl
  · have hcx : clean_text x =
        pyStrip (subRuns (fun c => c == ' ') ' ' false
          (subRuns (fun c => c == '\n') '\n' false
            ((subRuns isSpaceChar ' ' false x).map
              (fun c => if isAllowedChar c then c else ' ')))) := by
      simp only [clean_text, if_neg hx]
    set t2 := (subRuns isSpaceChar ' ' false x).map
      (fun c => if isAllowedChar c then c else ' ') with ht2
    have ft2_space : ∀ c ∈ t2, isSpaceChar c = true → c = ' ' := by
      intro c hc hsp
      obtain ⟨d, hd, hcd⟩ := List.mem_map.mp hc
      by_cases had : isAllowedChar d
      · rw [if_pos had] at hcd
        rcases mem_subRuns hd with h1 | h2
        · rw [← hcd, h1]
        · rw [← hcd] at hsp
          rw [h2.2] at hsp
          exact Bool.noConfusion hsp
      · rw [if_neg had] at hcd
        exact hcd.symm
    have ft2_allowed : ∀ c ∈ t2, isAllowedChar c = true := by
      intro c hc
      obtain ⟨d, hd, hcd⟩ := List.mem_map.mp hc
      by_cases had : isAllowedChar d
      · rw [if_pos had] at hcd
        rw [← hcd]
        exact had
      · rw [if_neg had] at hcd
        rw [← hcd]
        decide
    have ft2_nonl : ∀ c ∈ t2, (c == '\n') = false := by
      intro c hc
      cases heq : c == '\n' with
      | false => rfl
      | true =>
        have hcn : c = '\n' := eq_of_beq heq
        have hsp : c = ' ' := ft2_space c hc (by rw [hcn]; decide)
        rw [hcn] at hsp
        exact absurd hsp (by decide)
    have h_t3 : subRuns (fun c => c == '\n') '\n' false t2 = t2 :=
      subRuns_eq_self (noDoubles_of_all_false ft2_nonl)
        (fun c hc h => absurd h (by simp [ft2_nonl c hc]))
    rw [h_t3] at hcx
    set t4 := subRuns (fun c => c == ' ') ' ' false t2 with ht4
    have fy_space : ∀ c ∈ pyStrip t4, isSpaceChar c = true → c = ' ' := by
      intro c hc hsp
      rcases mem_subRuns (mem_pyStrip hc) with h1 | h2
      · exact h1
      · have hce := ft2_space c h2.1 hsp
        rw [hce] at h2
        simp at h2
    have fy_allowed : ∀ c ∈ pyStrip t4, isAllowedChar c = true := by
      intro c hc
      rcases mem_subRuns (mem_pyStrip hc) with h1 | h2
      · rw [h1]
        decide
      · exact ft2_allowed c h2.1
    have fy_nonl : ∀ c ∈ pyStrip t4, (c == '\n') = false := by
      intro c hc
      cases heq : c == '\n' with
      | false => rfl
      | true =>
        have hcn : c = '\n' := eq_of_beq heq
        have hsp : c = ' ' := fy_space c hc (by rw [hcn]; decide)
        rw [hcn] at hsp
        exact absurd hsp (by decide)
    have fy_nd : noDoubles (fun c => c == ' ') (pyStrip t4) = true := by
      unfold pyStrip dropLeadingSpaces
      exact noDoubles_dropTrailingSpaces
        (noDoubles_dropWhile (noDoubles_subRuns _ _ _ _))
    rw [hcx]
    by_cases hy : pyStrip t4 = []
    · rw [hy]
      rfl
    · simp only [clean_text, if_neg hy]
      rw [subRuns_eq_self (noDoubles_space_of_eq fy_space fy_nd) fy_space]
      rw [map_allowed_eq_self fy_allowed]
      rw [subRuns_eq_self (noDoubles_of_all_false fy_nonl)
        (fun c hc h => absurd h (by simp [fy_nonl c hc]))]
      rw [subRuns_eq_self fy_nd (fun c _ h => eq_of_beq h)]
      exact pyStrip_idem _

end ClinicAgent
